import Mathlib

/-!
Formal model of the preact host-adapter core (`src/preact.ts`) of the ink
terminal renderer: node classification, host-adapter container operations,
the style-mutation proxy, the static-subtree locator, the output-coalescing
scheduler, and the session registry.  Collaborator modules that are not part
of the analysed source (`dom.js`, `ink.js`, `instances.js`, the yoga layout
engine) are modelled from the specification where needed; such definitions
carry a doc comment starting with `Modelled from the spec:`.
-/

/-- Values flowing through the adapter's dynamically typed interfaces:
strings (as character lists), numbers, `NaN`, `undefined`, booleans. -/
inductive JSVal where
  | str : List Char → JSVal
  | num : Int → JSVal
  | nan : JSVal
  | undef : JSVal
  | bool : Bool → JSVal
deriving DecidableEq

/-- A JS style object: an insertion-ordered mapping from property names to values. -/
abbrev StyleMap := List (String × JSVal)

/-- Attribute values passed to `setAttribute`: either a primitive or a style object. -/
inductive AttrVal where
  | prim : JSVal → AttrVal
  | obj : StyleMap → AttrVal
deriving DecidableEq

/-- JS truthiness of an attribute value (used by `if (value)` in the source). -/
def truthy : AttrVal → Bool
  | .prim (.str s) => !s.isEmpty
  | .prim (.num n) => n != 0
  | .prim .nan => false
  | .prim .undef => false
  | .prim (.bool b) => b
  | .obj _ => true

/-- Set a key in a JS-object-like mapping: replace in place, else append. -/
def setKey {α : Type} : List (String × α) → String → α → List (String × α)
  | [], k, v => [(k, v)]
  | (k0, v0) :: rest, k, v =>
    if k0 = k then (k, v) :: rest else (k0, v0) :: setKey rest k v

/-- Read a key from a JS-object-like mapping. -/
def getKey {α : Type} : List (String × α) → String → Option α
  | [], _ => none
  | (k0, v0) :: rest, k => if k0 = k then some v0 else getKey rest k

/-- Character-list prefix test, mirroring how the source's regex anchors at the start. -/
def startsWith : List Char → List Char → Bool
  | [], _ => true
  | _ :: _, [] => false
  | p :: ps, c :: cs => p == c && startsWith ps cs

/-- The two characters of the unit suffix `px`. -/
def pxChars : List Char := 'p' :: 'x' :: []

/-- Test of the source's regex `/^\d+px/`: one or more digits at the start of
the string, immediately followed by `px` (the rest of the string is
unconstrained, exactly as in the unanchored-at-the-end regex). -/
def matchesDigitsPx (s : List Char) : Bool :=
  (!(s.takeWhile Char.isDigit).isEmpty) &&
    startsWith pxChars (List.drop (s.takeWhile Char.isDigit).length s)

/-- JS `String.prototype.replace` with a string pattern: remove the first
occurrence of `pat` (the source replaces it with the empty string). -/
def removeFirst (pat : List Char) : List Char → List Char
  | [] => []
  | c :: rest =>
    if startsWith pat (c :: rest) then List.drop pat.length (c :: rest)
    else c :: removeFirst pat rest

/-- Numeric value of a decimal digit character. -/
def digitVal (c : Char) : Nat := c.toNat - 48

/-- Value of a decimal digit string. -/
def digitsVal (s : List Char) : Nat := s.foldl (fun a c => a * 10 + digitVal c) 0

/-- Model of JS unary-plus string-to-number coercion, restricted to the
fragment needed here: the empty string coerces to `0`, unsigned decimal
integer strings coerce to their value, every other string is treated as
`NaN` (JS maps some further shapes, e.g. fractional literals, to numbers;
those shapes are outside the statements proved below). -/
def jsToNumber (s : List Char) : JSVal :=
  if s.isEmpty then .num 0
  else if s.all Char.isDigit then .num (Int.ofNat (digitsVal s))
  else .nan

/-- Observable side effects of adapter operations: a forward of the whole
current style mapping to the layout engine (`applyStyle`), and a request to
the output scheduler (`scheduleOutput`). -/
inductive Eff where
  | applied : StyleMap → Eff
  | scheduled : Eff
deriving DecidableEq

/-- Result of one assignment through the style proxy. -/
structure StyleOut where
  newStyle : StyleMap
  effs : List Eff
deriving DecidableEq

/-- The `set` trap of the style proxy in `get style()`: a string value matching
`/^\d+px/` is stored as `+value.replace('px', '')`; any other value is stored
unchanged; in either case, if the node has a yoga layout handle, the whole
updated style mapping is forwarded to `applyStyle` and output is scheduled. -/
def styleProxySet (yoga : Bool) (st : StyleMap) (prop : String) (v : JSVal) : StyleOut :=
  match v with
  | .str s =>
    if matchesDigitsPx s then
      let st' := setKey st prop (jsToNumber (removeFirst pxChars s))
      ⟨st', if yoga then [.applied st', .scheduled] else []⟩
    else
      let st' := setKey st prop (.str s)
      ⟨st', if yoga then [.applied st', .scheduled] else []⟩
  | w =>
    let st' := setKey st prop w
    ⟨st', if yoga then [.applied st', .scheduled] else []⟩

/-- State of one render call's output scheduler closure: whether the `flush`
timeout handle is non-null, how many deferred timeout tasks are queued and not
yet run, and how many times the combined `calculateLayout(); onRender()`
routine has run. -/
structure SchedSt where
  flushPending : Bool
  queuedTasks : Nat
  runCount : Nat
deriving DecidableEq

/-- Initial scheduler state: `flush` is null, nothing queued, nothing run. -/
def schedInit : SchedSt := ⟨false, 0, 0⟩

/-- The `scheduleOutput` closure installed by `render`: if `flush` is null,
set it and queue one deferred task; otherwise do nothing. -/
def scheduleOutput (s : SchedSt) : SchedSt :=
  if s.flushPending then s
  else { s with flushPending := true, queuedTasks := s.queuedTasks + 1 }

/-- Run one queued deferred task: it invokes the combined layout-recompute and
paint routine once and then sets `flush` back to null. -/
def runDeferred (s : SchedSt) : SchedSt :=
  if s.queuedTasks = 0 then s
  else { flushPending := false, queuedTasks := s.queuedTasks - 1,
         runCount := s.runCount + 1 }

/-- The kinds of synchronous mutations the adapters expose, together with the
data deciding whether the source calls `scheduleOutput` for them: structural
mutations, `setAttribute` and transform-hook writes always do; a style-proxy
write does so only when the node has an attached yoga layout handle; a text
write does so only when the node is a `#text` node. -/
inductive Mut where
  | structural : Mut
  | setAttr : Mut
  | transformWrite : Mut
  | styleWrite : Bool → Mut
  | textWrite : Bool → Mut
deriving DecidableEq

/-- Whether a mutation reaches `scheduleOutput` in the source. -/
def schedules : Mut → Bool
  | .styleWrite hasYoga => hasYoga
  | .textWrite isTextNode => isTextNode
  | _ => true

/-- Perform one synchronous mutation against the scheduler state. -/
def applyMut (s : SchedSt) (m : Mut) : SchedSt :=
  if schedules m then scheduleOutput s else s

/-- Perform a sequence of synchronous mutations without yielding. -/
def runMuts (s : SchedSt) (ms : List Mut) : SchedSt := ms.foldl applyMut s

/-- Modelled from the spec: the process-wide instance registry of
`instances.js` (a map keyed by output-target identity) together with a fresh
supply of `Ink` session identities for `() => new Ink(inkOptions)`. -/
structure InstRegistry where
  entries : List (Nat × Nat)
  nextInk : Nat
deriving DecidableEq

/-- Lookup in the registry's association list by output-target identity. -/
def lookupEntry : List (Nat × Nat) → Nat → Option Nat
  | [], _ => none
  | (k, v) :: rest, key => if k = key then some v else lookupEntry rest key

/-- The source's `getInstance`: return the registered session for `stdout`
if one exists, otherwise create a fresh one and register it. -/
def getInstance (stdout : Nat) (r : InstRegistry) : Nat × InstRegistry :=
  match lookupEntry r.entries stdout with
  | some i => (i, r)
  | none =>
    (r.nextInk, { entries := (stdout, r.nextInk) :: r.entries,
                  nextInk := r.nextInk + 1 })

/-- Keys (output-target identities) of a registry association list. -/
def keysOf (l : List (Nat × Nat)) : List Nat := l.map (fun p => p.1)

/-- The four recognized node names of the target tree: `ink-text`, `ink-box`,
`ink-root`, and the plain text node `#text`. -/
inductive NName where
  | inkText : NName
  | inkBox : NName
  | inkRoot : NName
  | hashText : NName
deriving DecidableEq

/-- Node type code for text nodes. -/
def TEXT_NODE : Nat := 1

/-- Node type code for box nodes. -/
def BOX_NODE : Nat := 3

/-- Node type code for root nodes. -/
def ROOT_NODE : Nat := 4

/-- The `nodeTypes` record: node-name to node-type-code classification fixed
at adapter construction. -/
def nodeTypeOf : NName → Nat
  | .inkText => TEXT_NODE
  | .inkBox => BOX_NODE
  | .inkRoot => ROOT_NODE
  | .hashText => TEXT_NODE

/-- The source's `isContainer` check: `ink-root`, `ink-box` and `ink-text`
nodes are containers (only `#text` is not). -/
def isContainer (n : NName) : Bool :=
  n == .inkRoot || n == .inkBox || n == .inkText

/-- Per-node data of a target-tree node: identity, name, the raw value stored
in `internal_static`, and the optional yoga layout handle. -/
structure NData where
  nid : Nat
  name : NName
  internalStatic : AttrVal
  yoga : Option Nat
deriving DecidableEq

mutual
/-- A target-tree node: its data and its ordered children. -/
inductive DNode where
  | node : NData → DForest → DNode
/-- An ordered sequence of target-tree children. -/
inductive DForest where
  | nil : DForest
  | cons : DNode → DForest → DForest
end

/-- Identity of a node. -/
def idOf : DNode → Nat
  | .node d _ => d.nid

/-- Name of a node. -/
def nameOf : DNode → NName
  | .node d _ => d.name

/-- Raw `internal_static` value stored on a node. -/
def flagOf : DNode → AttrVal
  | .node d _ => d.internalStatic

/-- Yoga layout handle of a node, if attached. -/
def yogaOf : DNode → Option Nat
  | .node d _ => d.yoga

/-- Whether a node's `internal_static` value is truthy. -/
def staticFlagged (n : DNode) : Bool := truthy (flagOf n)

mutual
/-- The source's `searchStatic`: return the node itself if its
`internal_static` is truthy, otherwise, when the node is `ink-root` or
`ink-box`, search the children in order and return the first hit. -/
def searchStatic : DNode → Option DNode
  | .node d f =>
    if truthy d.internalStatic then some (.node d f)
    else if d.name == .inkRoot || d.name == .inkBox then searchStaticF f
    else none
/-- Child loop of `searchStatic`. -/
def searchStaticF : DForest → Option DNode
  | .nil => none
  | .cons c f =>
    match searchStatic c with
    | some s => some s
    | none => searchStaticF f
end

mutual
/-- Pre-order visitation list described by the spec: visit the node, then,
only when it is of container kind `ink-root` or `ink-box`, visit its children
depth-first in order. -/
def preorderContainers : DNode → List DNode
  | .node d f =>
    DNode.node d f ::
      (if d.name == .inkRoot || d.name == .inkBox then preorderForest f else [])
/-- Pre-order visitation of a forest. -/
def preorderForest : DForest → List DNode
  | .nil => []
  | .cons c f => preorderContainers c ++ preorderForest f
end

/-- First node of a visitation list whose static flag is truthy (the spec's
"first visited node whose flag is true"). -/
def firstFlagged : List DNode → Option DNode
  | [] => none
  | n :: rest => if staticFlagged n then some n else firstFlagged rest

mutual
/-- Identities of a node and of everything reachable from it via child
pointers (the spec's descendant-or-self set). -/
def subtreeIds : DNode → List Nat
  | .node d f => d.nid :: forestIds f
/-- Identities reachable in a forest. -/
def forestIds : DForest → List Nat
  | .nil => []
  | .cons c f => subtreeIds c ++ forestIds f
end

mutual
/-- The source's `contains` search: identity comparison with the target,
then a depth-first scan of the children. -/
def containsSearch (other : Nat) : DNode → Bool
  | .node d f => (d.nid == other) || containsSearchF other f
/-- Child loop of the `contains` search. -/
def containsSearchF (other : Nat) : DForest → Bool
  | .nil => false
  | .cons c f => containsSearch other c || containsSearchF other f
end

mutual
/-- All yoga layout handles attached in a subtree, in pre-order. -/
def subtreeHandles : DNode → List Nat
  | .node d f =>
    (match d.yoga with | some h => [h] | none => []) ++ forestHandles f
/-- All yoga layout handles attached in a forest. -/
def forestHandles : DForest → List Nat
  | .nil => []
  | .cons c f => subtreeHandles c ++ forestHandles f
end

mutual
/-- Store a raw value into the `internal_static` slot of the node with the
given identity, leaving everything else unchanged. -/
def setFlag (nid : Nat) (v : AttrVal) : DNode → DNode
  | .node d f =>
    .node (if d.nid = nid then { d with internalStatic := v } else d)
      (setFlagF nid v f)
/-- `setFlag` over a forest. -/
def setFlagF (nid : Nat) (v : AttrVal) : DForest → DForest
  | .nil => .nil
  | .cons c f => .cons (setFlag nid v c) (setFlagF nid v f)
end

/-- Identities of the roots of a forest. -/
def topIdsF : DForest → List Nat
  | .nil => []
  | .cons c f => idOf c :: topIdsF f

/-- Identities of the immediate children of a node. -/
def topChildIds : DNode → List Nat
  | .node _ f => topIdsF f

/-- Modelled from the spec: the target tree's `removeChildNode` detaches the
node with the given identity from the child list. -/
def removeFromForest (cid : Nat) : DForest → DForest
  | .nil => .nil
  | .cons c f =>
    if idOf c == cid then removeFromForest cid f
    else .cons c (removeFromForest cid f)

/-- Detach the child with the given identity from a node's child list. -/
def detach (cid : Nat) : DNode → DNode
  | .node d f => .node d (removeFromForest cid f)

/-- Append a node at the end of a forest. -/
def forestAppend : DForest → DNode → DForest
  | .nil, n => .cons n .nil
  | .cons c f, n => .cons c (forestAppend f n)

/-- Modelled from the spec: the target tree's `appendChildNode` moves the
child to the end of the parent's child list. -/
def appendChildNode (parent : DNode) (child : DNode) : DNode :=
  match parent with
  | .node d f => .node d (forestAppend f child)

/-- Insert a node before the first entry with the given identity, or at the
end when no entry matches. -/
def forestInsertBefore (f : DForest) (n : DNode) (ref : Nat) : DForest :=
  match f with
  | .nil => .cons n .nil
  | .cons c rest =>
    if idOf c == ref then .cons n (.cons c rest)
    else .cons c (forestInsertBefore rest n ref)

/-- Modelled from the spec: the target tree's `insertBeforeNode` positions the
child before the reference node, or at the end when the reference is unset. -/
def insertBeforeNode (parent : DNode) (child : DNode) (ref : Option Nat) : DNode :=
  match parent, ref with
  | .node d f, some r => .node d (forestInsertBefore f child r)
  | .node d f, none => .node d (forestAppend f child)

/-- The fatal error message thrown by every container-only operation invoked
on a non-container node. -/
def msgNotContainer : String := "This is not a container"

/-- The reserved `style` attribute key. -/
def kStyle : String := "style"

/-- The reserved `internal_static` attribute key. -/
def kStatic : String := "internal_static"

/-- The reserved `internal_transform` attribute key. -/
def kTransform : String := "internal_transform"

/-- The style property name used in the concrete runs below. -/
def wname : String := "width"

/-- Whether a fallible adapter operation returned normally. -/
def isOkE {α : Type} : Except String α → Bool
  | .ok _ => true
  | .error _ => false

/-- The adapter's `appendChild`: requires a container wrapped node, schedules
output, and moves the child into the wrapped node's child list. -/
def appendChild (self : DNode) (child : DNode) : Except String (DNode × List Eff) :=
  if isContainer (nameOf self) then
    .ok (appendChildNode self child, [Eff.scheduled])
  else .error msgNotContainer

/-- The adapter's `insertBefore`: as `appendChild` but positioned before the
reference child when one is given. -/
def insertBefore (self : DNode) (child : DNode) (ref : Option Nat) :
    Except String (DNode × List Eff) :=
  if isContainer (nameOf self) then
    .ok (insertBeforeNode self child ref, [Eff.scheduled])
  else .error msgNotContainer

/-- Result of a successful `removeChild`: the parent after detachment, the
handles released by `freeRecursive`, and the emitted effects. -/
structure RcOut where
  parentAfter : DNode
  released : List Nat
  effs : List Eff

/-- The adapter's `removeChild`: requires a container wrapped node, detaches
the child, then calls `child.yogaNode?.freeRecursive()` — modelled from the
spec, `freeRecursive` releases every layout handle under the removed subtree,
and the optional-chaining call releases nothing when the child has no handle —
and schedules output. -/
def removeChild (self : DNode) (child : DNode) : Except String RcOut :=
  if isContainer (nameOf self) then
    .ok { parentAfter := detach (idOf child) self,
          released := match yogaOf child with
            | some _ => subtreeHandles child
            | none => [],
          effs := [Eff.scheduled] }
  else .error msgNotContainer

/-- The adapter's `contains`: requires a container wrapped node and runs the
identity search over the wrapped subtree. -/
def containsOp (self : DNode) (other : Nat) : Except String Bool :=
  if isContainer (nameOf self) then .ok (containsSearch other self)
  else .error msgNotContainer

/-- Set a key in a node-identity-keyed table: replace in place, else append. -/
def setKeyN {α : Type} : List (Nat × α) → Nat → α → List (Nat × α)
  | [], k, v => [(k, v)]
  | (k0, v0) :: rest, k, v =>
    if k0 = k then (k, v) :: rest else (k0, v0) :: setKeyN rest k v

/-- Read a key from a node-identity-keyed table. -/
def getKeyN {α : Type} : List (Nat × α) → Nat → Option α
  | [], _ => none
  | (k0, v0) :: rest, k => if k0 = k then some v0 else getKeyN rest k

/-- Style mapping carried by an attribute value (the `style` attribute is
assigned whole style objects). -/
def asStyleMap : AttrVal → StyleMap
  | .obj m => m
  | .prim _ => []

/-- Session state seen by `setAttribute`: the session's root target tree (the
static branch searches from `PreactElement.root`), the root's `staticNode`
slot, the per-node attribute, style and transform storage of the target tree,
and the emitted effects. -/
structure Sess where
  root : DNode
  staticNode : Option Nat
  attrsTab : List (Nat × List (String × AttrVal))
  styleTab : List (Nat × StyleMap)
  transformTab : List (Nat × AttrVal)
  effs : List Eff

/-- The adapter's `setAttribute`, operating on the node with identity `nid`:
a `style` key stores the value through the target tree's `setStyle` (modelled
from the spec: it stores the given style mapping on the node); an
`internal_transform` key stores the transform hook; an `internal_static` key
stores the raw flag and updates `root.staticNode` — directly for a truthy
value, via `searchStatic` from the root for a falsy one; every key is then
forwarded to the target tree's `setAttribute` (modelled from the spec: it
stores the value in the node's attribute mapping), and output is scheduled. -/
def setAttribute (s : Sess) (nid : Nat) (key : String) (v : AttrVal) : Sess :=
  let s1 := if key = "style" then
      { s with styleTab := setKeyN s.styleTab nid (asStyleMap v) }
    else s
  let s2 := if key = "internal_transform" then
      { s1 with transformTab := setKeyN s1.transformTab nid v }
    else s1
  let s3 := if key = "internal_static" then
      let root' := setFlag nid v s2.root
      { s2 with root := root',
                staticNode := if truthy v then some nid
                  else (searchStatic root').map idOf }
    else s2
  let oldAttrs := (getKeyN s3.attrsTab nid).getD []
  let s4 := { s3 with attrsTab := setKeyN s3.attrsTab nid (setKey oldAttrs key v) }
  { s4 with effs := s4.effs ++ [Eff.scheduled] }

/-- Attribute value currently stored for a node. -/
def getAttr (s : Sess) (nid : Nat) (key : String) : Option AttrVal :=
  getKey ((getKeyN s.attrsTab nid).getD []) key

/-- One `scheduleOutput` closure created by a `render` call: the session it
captured and whether its local `flush` timeout handle is non-null. -/
structure Closure where
  sess : Nat
  flag : Bool
deriving DecidableEq

/-- Global state of the static scheduling hook: the closures created so far
(keyed by creation index), the index of the closure currently installed in the
static `PreactElement.scheduleOutput` slot, the queued deferred tasks (by
closure index, in order), and the log of sessions whose combined
`calculateLayout(); onRender()` routine has run. -/
structure GSt where
  closures : List (Nat × Closure)
  bound : Option Nat
  nextCid : Nat
  queued : List Nat
  ran : List Nat
deriving DecidableEq

/-- Initial global state: the static hook holds the original no-op. -/
def gInit : GSt := ⟨[], none, 0, [], []⟩

/-- Flag of a closure by index. -/
def gFlag (g : GSt) (cid : Nat) : Bool :=
  match getKeyN g.closures cid with
  | some c => c.flag
  | none => false

/-- Session captured by a closure, by index. -/
def gSess (g : GSt) (cid : Nat) : Option Nat :=
  (getKeyN g.closures cid).map Closure.sess

/-- Set the flag of a closure by index. -/
def gSetFlag (g : GSt) (cid : Nat) (b : Bool) : GSt :=
  match getKeyN g.closures cid with
  | some c => { g with closures := setKeyN g.closures cid { c with flag := b } }
  | none => g

/-- Invoke the static `PreactElement.scheduleOutput`: the currently bound
closure checks its own `flush` flag and, when the flag is clear, sets it and
queues one deferred task for its captured session. -/
def gSchedule (g : GSt) : GSt :=
  match g.bound with
  | none => g
  | some cid =>
    if gFlag g cid then g
    else { gSetFlag g cid true with queued := g.queued ++ [cid] }

/-- A `render` call for session `sid`: create a fresh closure with a null
`flush` handle, install it in the static hook (overwriting whatever was
there), and issue the initial `scheduleOutput()`. -/
def gRender (g : GSt) (sid : Nat) : GSt :=
  gSchedule { g with closures := g.closures ++ [(g.nextCid, ⟨sid, false⟩)],
                     bound := some g.nextCid,
                     nextCid := g.nextCid + 1 }

/-- A mutation performed through an adapter belonging to session `own`: the
adapter calls the static `PreactElement.scheduleOutput`, which does not
consult `own` at all. -/
def gMutateVia (own : Nat) (g : GSt) : GSt :=
  let _ := own
  gSchedule g

/-- Run the queued deferred tasks in order: each task runs the combined
routine of its closure's captured session and then nulls that closure's
`flush` handle. -/
def gFlushTasks (g : GSt) : GSt :=
  let step := fun (acc : GSt) (cid : Nat) =>
    let acc1 := gSetFlag acc cid false
    match gSess acc cid with
    | some sid => { acc1 with ran := acc1.ran ++ [sid] }
    | none => acc1
  let g' := g.queued.foldl step g
  { g' with queued := [] }

/-- Session captured by the currently bound closure. -/
def gBoundSess (g : GSt) : Option Nat :=
  match g.bound with
  | none => none
  | some cid => gSess g cid

/-- State of adapter construction: fresh node and adapter identities, the
identity-keyed side table (the `WeakMap` written only by the `document`
factories), and the list of every adapter ever constructed, with the node it
wraps. -/
structure AdState where
  nextNode : Nat
  nextAdapter : Nat
  table : List (Nat × Nat)
  wraps : List (Nat × Nat)
deriving DecidableEq

/-- The `document.createTextNode` factory: create a fresh target-tree node,
wrap it in a fresh adapter, and register the pair in the side table. -/
def createTextNodeF (w : AdState) : AdState :=
  { nextNode := w.nextNode + 1,
    nextAdapter := w.nextAdapter + 1,
    table := (w.nextNode, w.nextAdapter) :: w.table,
    wraps := (w.nextAdapter, w.nextNode) :: w.wraps }

/-- The `document.createElementNS` factory: for an `ink-`-prefixed name,
behave like `createTextNode` (fresh node, fresh registered adapter); for any
other name, throw. -/
def createElementNSF (w : AdState) (inkPrefixed : Bool) : Except String AdState :=
  if inkPrefixed then .ok (createTextNodeF w)
  else .error ("Method not implemented.")

/-- The adapter construction performed by `render`:
`new PreactElement(instance.rootNode)` wraps the session's existing root node
in a fresh adapter; the constructor does not consult or update the side
table. -/
def renderAdapter (w : AdState) (rootNode : Nat) : AdState :=
  { w with nextAdapter := w.nextAdapter + 1,
           wraps := (w.nextAdapter, rootNode) :: w.wraps }

/-- Number of adapters ever constructed that wrap the given node. -/
def adaptersOf (w : AdState) (n : Nat) : Nat :=
  (w.wraps.filter (fun p => p.2 == n)).length

/-- Leaf helper: a childless node. -/
def leaf (nid : Nat) (name : NName) (st : AttrVal) (yoga : Option Nat) : DNode :=
  .node ⟨nid, name, st, yoga⟩ .nil

/-- Forest literal helper: two children. -/
def forest2 (a b : DNode) : DForest := .cons a (.cons b .nil)

/-- Example `ink-text` node (text-leaf node-type code, yet a container). -/
def exInkText : DNode := leaf 1 .inkText (.prim .undef) none

/-- Example `#text` node. -/
def exHashText : DNode := leaf 2 .hashText (.prim .undef) none

/-- Example child node for container-operation inputs. -/
def exChild : DNode := leaf 3 .hashText (.prim .undef) none

/-- Example tree for the static-subtree toggling run: a root with two box
children A (identity 1) and B (identity 2), both flagged static, A before B
in document order. -/
def exStaticRoot : DNode :=
  .node ⟨0, .inkRoot, .prim .undef, none⟩
    (forest2 (leaf 1 .inkBox (.prim (.bool true)) none)
             (leaf 2 .inkBox (.prim (.bool true)) none))

/-- Session holding the two-static-boxes tree, with `staticNode` pointing at
B as it does right after B's flag was set truthy last. -/
def exStaticSess : Sess :=
  { root := exStaticRoot, staticNode := some 2,
    attrsTab := [], styleTab := [], transformTab := [], effs := [] }

/-- The falsy flag value used in the toggling run. -/
def valFalse : AttrVal := .prim (.bool false)

/-- The truthy flag value used in the toggling run. -/
def valTrue : AttrVal := .prim (.bool true)

/-- The B-false, B-true, B-false toggling run of the static-subtree locator,
performed through `setAttribute` on node 2 of the example session. -/
def exToggleRun : Sess :=
  setAttribute
    (setAttribute (setAttribute exStaticSess 2 kStatic valFalse)
      2 kStatic valTrue)
    2 kStatic valFalse

/-- Session for the `setAttribute` style-routing run: one root node with an
attached layout handle and an empty style mapping. -/
def exStyleSess : Sess :=
  { root := leaf 0 .inkRoot (.prim .undef) (some 7), staticNode := none,
    attrsTab := [], styleTab := [(0, [])], transformTab := [], effs := [] }

/-- The style object `{ width: "10px" }` assigned via `setAttribute`. -/
def exStyleVal : AttrVal := .obj [(wname, .str ('1' :: '0' :: pxChars))]

/-- Result of `setAttribute(node0, "style", { width: "10px" })`. -/
def exStyleRun : Sess := setAttribute exStyleSess 0 kStyle exStyleVal

/-- Example parent for the `removeChild` run: a root owning one box child. -/
def exRcChild : DNode :=
  .node ⟨1, .inkBox, .prim .undef, some 5⟩
    (.cons (leaf 2 .hashText (.prim .undef) (some 6)) .nil)

/-- Example parent tree for the `removeChild` run. -/
def exRcParent : DNode :=
  .node ⟨0, .inkRoot, .prim .undef, some 4⟩ (.cons exRcChild .nil)

/-- Example containment tree: root 0 over box 1 over text 2, plus box 3. -/
def exContainTree : DNode :=
  .node ⟨0, .inkRoot, .prim .undef, none⟩
    (forest2 (.node ⟨1, .inkBox, .prim .undef, none⟩
               (.cons (leaf 2 .hashText (.prim .undef) none) .nil))
             (leaf 3 .inkBox (.prim .undef) none))

/-- The two-render two-session run: render session 0, render session 1, let
the deferred tasks run, mutate through an adapter of session 0, let the
deferred tasks run again. -/
def exTwoSessionRun : GSt :=
  gFlushTasks (gMutateVia 0 (gFlushTasks (gRender (gRender gInit 0) 1)))

/-- Adapter-construction state in which the session's root node (identity 0)
already exists and no adapter has been built yet. -/
def exAdInit : AdState := ⟨1, 0, [], []⟩

/-- Two `render` calls against the same output target: both look up the same
session and wrap its one root node in a fresh adapter each time. -/
def exTwoRenders : AdState := renderAdapter (renderAdapter exAdInit 0) 0

/-- The single-no-op-mutation run for the scheduler: one style assignment on
a node with no attached layout handle. -/
def exQuietMuts : List Mut := [Mut.styleWrite false]

theorem applyMut_absorb (m : Mut) (p r : Nat) :
    applyMut ⟨true, p, r⟩ m = ⟨true, p, r⟩ := by
  unfold applyMut scheduleOutput
  cases schedules m <;> simp

theorem foldl_applyMut_absorb (ms : List Mut) (p r : Nat) :
    List.foldl applyMut ⟨true, p, r⟩ ms = ⟨true, p, r⟩ := by
  induction ms with
  | nil => rfl
  | cons m ms ih => simp [List.foldl, applyMut_absorb, ih]

theorem runMuts_schedInit (ms : List Mut) :
    runMuts schedInit ms = if ms.any schedules then ⟨true, 1, 0⟩ else schedInit := by
  induction ms with
  | nil => rfl
  | cons m ms ih =>
    unfold runMuts at ih ⊢
    simp only [List.foldl_cons, List.any_cons]
    have ha : applyMut schedInit m =
        if schedules m then ⟨true, 1, 0⟩ else schedInit := by
      unfold applyMut
      cases schedules m <;> simp [scheduleOutput, schedInit]
    rcases Bool.eq_false_or_eq_true (schedules m) with hm | hm <;>
      simp [ha, hm, ih, foldl_applyMut_absorb]

/-- C1 (amended): for every sequence of synchronous mutations performed
through one session's adapters without yielding, provided at least one of
them reaches the scheduler (structural mutations, `setAttribute` and
transform writes always do; a style write does only when the node has an
attached layout handle; a text write does only on a `#text` node), exactly
one deferred task is queued, running it invokes the combined
layout-recompute-and-paint routine exactly once, and the pending-flush flag
is clear again afterwards. -/
theorem c1_coalescing_amended (ms : List Mut) (h : ms.any schedules = true) :
    (runMuts schedInit ms).queuedTasks = 1 ∧
    runDeferred (runMuts schedInit ms) = ⟨false, 0, 1⟩ := by
  rw [runMuts_schedInit, h]
  exact ⟨rfl, rfl⟩

/-- Witness for C1: a concrete burst of three mutations queues one task whose
run invokes the routine once and clears the flag. -/
theorem c1_coalescing_witness :
    (runMuts schedInit [Mut.structural, Mut.setAttr, Mut.structural]).queuedTasks = 1 ∧
    runDeferred (runMuts schedInit [Mut.structural, Mut.setAttr, Mut.structural]) =
      ⟨false, 0, 1⟩ :=
  c1_coalescing_amended [Mut.structural, Mut.setAttr, Mut.structural] (by decide)

/-- Counterexample to C1 as stated: a single style assignment on a node with
no attached layout handle is a synchronous mutation (the store happens), yet
it queues no deferred task and the combined routine never runs — not exactly
once. -/
theorem c1_counterexample :
    1 ≤ exQuietMuts.length ∧
    (runMuts schedInit exQuietMuts).queuedTasks = 0 ∧
    (runDeferred (runMuts schedInit exQuietMuts)).runCount = 0 := by
  decide

/-- C2 (amended): every container-only operation — `appendChild`,
`insertBefore`, `removeChild`, `contains` — invoked on an adapter whose
wrapped node is a plain `#text` node fails fatally with the
`This is not a container` error; adapters wrapping `ink-text` nodes, although
their `nodeType` is the text code, pass the `isContainer` check and are not
subject to this failure. -/
theorem c2_not_a_container_amended (self child : DNode) (ref : Option Nat)
    (other : Nat) (h : nameOf self = NName.hashText) :
    appendChild self child = .error msgNotContainer ∧
    insertBefore self child ref = .error msgNotContainer ∧
    removeChild self child = .error msgNotContainer ∧
    containsOp self other = .error msgNotContainer := by
  have hc : isContainer (nameOf self) = false := by rw [h]; rfl
  refine ⟨?_, ?_, ?_, ?_⟩ <;>
    simp [appendChild, insertBefore, removeChild, containsOp, hc]

/-- Witness for C2: all four container-only operations fail with the
`This is not a container` error on a concrete `#text`-wrapped adapter. -/
theorem c2_not_a_container_witness :
    appendChild exHashText exChild = .error msgNotContainer ∧
    insertBefore exHashText exChild none = .error msgNotContainer ∧
    removeChild exHashText exChild = .error msgNotContainer ∧
    containsOp exHashText 3 = .error msgNotContainer :=
  c2_not_a_container_amended exHashText exChild none 3 rfl

/-- Counterexample to C2 as stated: an `ink-text` node has the text-leaf
`nodeType` code, yet `appendChild` on its adapter succeeds instead of failing
with the `This is not a container` error. -/
theorem c2_counterexample :
    nodeTypeOf (nameOf exInkText) = TEXT_NODE ∧
    isOkE (appendChild exInkText exChild) = true ∧
    isOkE (insertBefore exInkText exChild none) = true ∧
    isOkE (removeChild exInkText exChild) = true ∧
    isOkE (containsOp exInkText 3) = true := by
  refine ⟨rfl, rfl, rfl, rfl, rfl⟩

theorem drop_length_append {α : Type} (a b : List α) :
    List.drop a.length (a ++ b) = b := by
  induction a with
  | nil => rfl
  | cons c a ih => simp [ih]

theorem takeWhile_digits_append (ds : List Char) (xs : List Char)
    (h : ∀ c ∈ ds, c.isDigit = true) :
    List.takeWhile Char.isDigit (ds ++ 'p' :: xs) = ds := by
  induction ds with
  | nil =>
    simp [List.takeWhile]
  | cons c ds ih =>
    have hc : c.isDigit = true := h c (by simp)
    simp only [List.cons_append, List.takeWhile, hc, List.append_eq]
    rw [ih (fun d hd => h d (by simp [hd]))]

theorem startsWith_px_cons (xs : List Char) :
    startsWith pxChars ('p' :: 'x' :: xs) = true := by
  simp [pxChars, startsWith]

theorem matchesDigitsPx_append (ds : List Char) (h1 : ds ≠ [])
    (h2 : ∀ c ∈ ds, c.isDigit = true) :
    matchesDigitsPx (ds ++ pxChars) = true := by
  have he : ds.isEmpty = false := by
    cases ds with
    | nil => exact absurd rfl h1
    | cons c t => rfl
  unfold matchesDigitsPx pxChars
  rw [takeWhile_digits_append ds ('x' :: []) h2]
  rw [drop_length_append ds ('p' :: 'x' :: [])]
  simp [startsWith, he]

theorem removeFirst_digits_append (ds : List Char)
    (h : ∀ c ∈ ds, c.isDigit = true) :
    removeFirst pxChars (ds ++ pxChars) = ds := by
  unfold pxChars
  induction ds with
  | nil =>
    simp [removeFirst, startsWith]
  | cons c ds ih =>
    have hc : c.isDigit = true := h c (by simp)
    have hne : ('p' == c) = false := by
      cases hq : ('p' == c) with
      | true =>
        have hcp : c = 'p' := (beq_iff_eq.mp hq).symm
        rw [hcp] at hc
        exact absurd hc (by decide)
      | false => rfl
    simp only [List.cons_append, removeFirst, startsWith, hne,
      Bool.false_and, List.append_eq]
    rw [ih (fun d hd => h d (by simp [hd]))]
    simp

theorem jsToNumber_digits (ds : List Char) (h1 : ds ≠ [])
    (h2 : ∀ c ∈ ds, c.isDigit = true) :
    jsToNumber ds = .num (Int.ofNat (digitsVal ds)) := by
  unfold jsToNumber
  have he : ds.isEmpty = false := by cases ds with
    | nil => exact absurd rfl h1
    | cons c t => rfl
  have ha : ds.all Char.isDigit = true := List.all_eq_true.mpr h2
  simp [he, ha]

theorem getKey_setKey {α : Type} (m : List (String × α)) (k : String) (v : α) :
    getKey (setKey m k v) k = some v := by
  induction m with
  | nil => simp [setKey, getKey]
  | cons p rest ih =>
    by_cases h : p.1 = k
    · simp [setKey, getKey, h]
    · simp [setKey, getKey, h, ih]

/-- C4 (amended): a style value beginning with one-or-more digits immediately
followed by `px` is coerced — the first occurrence of `px` is removed and the
remainder is numerically converted — so a value consisting exactly of digits
followed by `px` stores the corresponding number; any string not beginning
with digits-then-`px`, and any non-string value, is stored unchanged; when
the node has an attached layout handle the updated style mapping (with the
conversion already applied) is forwarded to the layout engine and only then
is output scheduled. -/
theorem c4_px_normalization_amended (yoga : Bool) (st : StyleMap)
    (prop : String) (ds : List Char) (h1 : ds ≠ [])
    (h2 : ∀ c ∈ ds, c.isDigit = true) :
    getKey (styleProxySet yoga st prop (.str (ds ++ pxChars))).newStyle prop
      = some (.num (Int.ofNat (digitsVal ds))) ∧
    (∀ s : List Char, matchesDigitsPx s = false →
      ∀ st2 : StyleMap,
        getKey (styleProxySet yoga st2 prop (.str s)).newStyle prop
          = some (.str s)) ∧
    (∀ v : JSVal, (∀ s : List Char, v ≠ .str s) →
      ∀ st2 : StyleMap,
        getKey (styleProxySet yoga st2 prop v).newStyle prop = some v) ∧
    (yoga = true →
      (styleProxySet yoga st prop (.str (ds ++ pxChars))).effs =
        [Eff.applied
          (styleProxySet yoga st prop (.str (ds ++ pxChars))).newStyle,
         Eff.scheduled]) := by
  have hm := matchesDigitsPx_append ds h1 h2
  have hr := removeFirst_digits_append ds h2
  have hj := jsToNumber_digits ds h1 h2
  refine ⟨?_, ?_, ?_, ?_⟩
  · simp [styleProxySet, hm, hr, hj, getKey_setKey]
  · intro s hs st2
    simp [styleProxySet, hs, getKey_setKey]
  · intro v hv st2
    cases v with
    | str s => exact absurd rfl (hv s)
    | num n => simp [styleProxySet, getKey_setKey]
    | nan => simp [styleProxySet, getKey_setKey]
    | undef => simp [styleProxySet, getKey_setKey]
    | bool b => simp [styleProxySet, getKey_setKey]
  · intro hy
    simp [styleProxySet, hm, hy]

/-- Witness for C4: assigning `"10px"` stores the number `10` and forwards
the updated mapping before scheduling. -/
theorem c4_px_normalization_witness :
    getKey (styleProxySet true [] wname
        (.str (('1' :: '0' :: []) ++ pxChars))).newStyle wname
      = some (.num (Int.ofNat (digitsVal ('1' :: '0' :: [])))) ∧
    (styleProxySet true [] wname (.str (('1' :: '0' :: []) ++ pxChars))).effs =
      [Eff.applied (styleProxySet true [] wname
          (.str (('1' :: '0' :: []) ++ pxChars))).newStyle,
       Eff.scheduled] :=
  ⟨(c4_px_normalization_amended true [] wname ('1' :: '0' :: [])
      (by decide) (by decide)).1,
   (c4_px_normalization_amended true [] wname ('1' :: '0' :: [])
      (by decide) (by decide)).2.2.2 rfl⟩

/-- Counterexample to C4 as stated: `"1px1"` is not digits followed by the
suffix `px`, so by the claim it should be stored unchanged, yet the source's
prefix-only regex matches it and the first `px` occurrence is removed, so the
number `11` is stored instead. -/
theorem c4_counterexample :
    getKey (styleProxySet true [] wname
        (.str ('1' :: 'p' :: 'x' :: '1' :: []))).newStyle wname
      = some (.num 11) ∧
    JSVal.num 11 ≠ .str ('1' :: 'p' :: 'x' :: '1' :: []) := by
  exact ⟨by decide, by decide⟩

theorem firstFlagged_append (a b : List DNode) :
    firstFlagged (a ++ b) =
      match firstFlagged a with
      | some x => some x
      | none => firstFlagged b := by
  induction a with
  | nil => rfl
  | cons n rest ih =>
    simp only [List.cons_append, firstFlagged]
    cases h : staticFlagged n with
    | true => simp [h]
    | false => simp [h, ih]

mutual
theorem searchStatic_eq : ∀ t : DNode,
    searchStatic t = firstFlagged (preorderContainers t)
  | .node d f => by
    simp only [searchStatic, preorderContainers, firstFlagged, staticFlagged,
      flagOf]
    rcases Bool.eq_false_or_eq_true (truthy d.internalStatic) with hs | hs
    · simp [hs]
    · by_cases hc : d.name = NName.inkRoot ∨ d.name = NName.inkBox
      · simp [hs, hc, searchStaticF_eq f]
      · simp [hs, hc, firstFlagged]
theorem searchStaticF_eq : ∀ f : DForest,
    searchStaticF f = firstFlagged (preorderForest f)
  | .nil => rfl
  | .cons c f => by
    simp only [searchStaticF, preorderForest, firstFlagged_append]
    rw [← searchStatic_eq c, ← searchStaticF_eq f]
end

mutual
theorem containsSearch_mem : ∀ (t : DNode) (x : Nat),
    containsSearch x t = true ↔ x ∈ subtreeIds t
  | .node d f, x => by
    simp only [containsSearch, subtreeIds, Bool.or_eq_true, beq_iff_eq,
      List.mem_cons, containsSearchF_mem f x]
    constructor
    · rintro (h | h)
      · exact Or.inl h.symm
      · exact Or.inr h
    · rintro (h | h)
      · exact Or.inl h.symm
      · exact Or.inr h
theorem containsSearchF_mem : ∀ (f : DForest) (x : Nat),
    containsSearchF x f = true ↔ x ∈ forestIds f
  | .nil, x => by simp [containsSearchF, forestIds]
  | .cons c f, x => by
    simp only [containsSearchF, forestIds, Bool.or_eq_true, List.mem_append,
      containsSearch_mem c x, containsSearchF_mem f x]
end

theorem getKeyN_setKeyN {α : Type} (l : List (Nat × α)) (k : Nat) (v : α) :
    getKeyN (setKeyN l k v) k = some v := by
  induction l with
  | nil => simp [setKeyN, getKeyN]
  | cons p rest ih =>
    by_cases h : p.1 = k
    · simp [setKeyN, getKeyN, h]
    · simp [setKeyN, getKeyN, h, ih]

theorem setAttribute_effs (s : Sess) (nid : Nat) (key : String) (v : AttrVal) :
    (setAttribute s nid key v).effs = s.effs ++ [Eff.scheduled] := by
  by_cases h1 : key = "style" <;>
    by_cases h2 : key = "internal_transform" <;>
      by_cases h3 : key = "internal_static" <;>
        simp [setAttribute, h1, h2, h3]

theorem setAttribute_attr (s : Sess) (nid : Nat) (key : String) (v : AttrVal) :
    getAttr (setAttribute s nid key v) nid key = some v := by
  by_cases h1 : key = "style" <;>
    by_cases h2 : key = "internal_transform" <;>
      by_cases h3 : key = "internal_static" <;>
        simp [setAttribute, getAttr, h1, h2, h3, getKeyN_setKeyN, getKey_setKey]

theorem setAttribute_staticNode (s : Sess) (nid : Nat) (v : AttrVal) :
    (setAttribute s nid kStatic v).staticNode =
      (if truthy v then some nid
       else (searchStatic (setFlag nid v s.root)).map idOf) := by
  have h1 : (kStatic = "style") ↔ False := iff_false_intro (by decide)
  have h2 : (kStatic = "internal_transform") ↔ False := iff_false_intro (by decide)
  have h3 : (kStatic = "internal_static") ↔ True := iff_true_intro rfl
  simp only [setAttribute, h1, h2, h3, if_false, if_true]

theorem setAttribute_root_static (s : Sess) (nid : Nat) (v : AttrVal) :
    (setAttribute s nid kStatic v).root = setFlag nid v s.root := by
  have h1 : (kStatic = "style") ↔ False := iff_false_intro (by decide)
  have h2 : (kStatic = "internal_transform") ↔ False := iff_false_intro (by decide)
  have h3 : (kStatic = "internal_static") ↔ True := iff_true_intro rfl
  simp only [setAttribute, h1, h2, h3, if_false, if_true]

theorem setAttribute_styleTab (s : Sess) (nid : Nat) (v : AttrVal) :
    getKeyN (setAttribute s nid kStyle v).styleTab nid = some (asStyleMap v) := by
  have h1 : (kStyle = "style") ↔ True := iff_true_intro rfl
  have h2 : (kStyle = "internal_transform") ↔ False := iff_false_intro (by decide)
  have h3 : (kStyle = "internal_static") ↔ False := iff_false_intro (by decide)
  simp only [setAttribute, h1, h2, h3, if_false, if_true]
  exact getKeyN_setKeyN s.styleTab nid (asStyleMap v)

/-- C3 (confirmed): setting a node's static flag to a falsy value recomputes
`root.staticNode` as the first node, in the pre-order visitation that descends
only into `ink-root`/`ink-box` nodes, whose flag is truthy on the resulting
tree (unset when there is none); setting it to a truthy value assigns
`root.staticNode` to that node directly; and the concrete B-false, B-true,
B-false toggling run on a tree with static boxes A before B leaves
`root.staticNode` at A. -/
theorem c3_static_locator :
    (∀ (s : Sess) (nid : Nat) (v : AttrVal), truthy v = false →
      (setAttribute s nid kStatic v).staticNode =
        (firstFlagged
          (preorderContainers ((setAttribute s nid kStatic v).root))).map idOf) ∧
    (∀ (s : Sess) (nid : Nat) (v : AttrVal), truthy v = true →
      (setAttribute s nid kStatic v).staticNode = some nid) ∧
    exToggleRun.staticNode = some 1 := by
  refine ⟨?_, ?_, ?_⟩
  · intro s nid v hv
    rw [setAttribute_staticNode, setAttribute_root_static, hv]
    simp [searchStatic_eq]
  · intro s nid v hv
    rw [setAttribute_staticNode, hv]
    simp
  · decide

/-- Witness for C3: the falsy branch at a concrete session equals the
pre-order recomputation, and the truthy branch assigns directly. -/
theorem c3_static_locator_witness :
    (setAttribute exStaticSess 2 kStatic valFalse).staticNode =
      (firstFlagged (preorderContainers
        ((setAttribute exStaticSess 2 kStatic valFalse).root))).map idOf ∧
    (setAttribute exStaticSess 2 kStatic valTrue).staticNode = some 2 :=
  ⟨(c3_static_locator).1 exStaticSess 2 valFalse (by decide),
   (c3_static_locator).2.1 exStaticSess 2 valTrue (by decide)⟩

/-- C7 (confirmed): on a container adapter, `contains(self)` is true, and
`contains(X)` is true exactly when X's wrapped node is the adapter's own
wrapped node or is reachable from it via child pointers. -/
theorem c7_contains_semantics (t : DNode) (x : Nat)
    (hc : isContainer (nameOf t) = true) :
    containsOp t (idOf t) = .ok true ∧
    (containsOp t x = .ok true ↔ x ∈ subtreeIds t) := by
  have h1 : containsSearch (idOf t) t = true := by
    apply (containsSearch_mem t (idOf t)).mpr
    cases t with
    | node d f => simp [idOf, subtreeIds]
  refine ⟨?_, ?_⟩
  · simp [containsOp, hc, h1]
  · simp only [containsOp, hc, if_true]
    rw [show (Except.ok (containsSearch x t) : Except String Bool) = .ok true
          ↔ containsSearch x t = true by simp]
    exact containsSearch_mem t x

/-- Witness for C7: self-containment and the membership characterisation on a
concrete container tree. -/
theorem c7_contains_witness :
    containsOp exContainTree (idOf exContainTree) = .ok true ∧
    (containsOp exContainTree 2 = .ok true ↔ 2 ∈ subtreeIds exContainTree) :=
  c7_contains_semantics exContainTree 2 (by decide)

/-- C5 (amended): for every key and value, `setAttribute(key, value)` stores
the value in the target tree's attribute mapping (including the special
keys), routes a `style` value to the target tree's generic `setStyle` —
storing the mapping unchanged, without passing through the Style
Interceptor's assignment path — routes the reserved `internal_static` key
through the Static-Subtree Locator, and always schedules output afterward. -/
theorem c5_setattribute_routing_amended (s : Sess) (nid : Nat) (key : String)
    (v : AttrVal) :
    getAttr (setAttribute s nid key v) nid key = some v ∧
    (key = kStyle →
      getKeyN (setAttribute s nid key v).styleTab nid = some (asStyleMap v)) ∧
    (key = kStatic →
      (setAttribute s nid key v).staticNode =
        (if truthy v then some nid
         else (firstFlagged (preorderContainers
           ((setAttribute s nid key v).root))).map idOf)) ∧
    (setAttribute s nid key v).effs = s.effs ++ [Eff.scheduled] := by
  refine ⟨setAttribute_attr s nid key v, ?_, ?_, setAttribute_effs s nid key v⟩
  · intro hk
    subst hk
    exact setAttribute_styleTab s nid v
  · intro hk
    subst hk
    rw [setAttribute_staticNode, setAttribute_root_static]
    rcases Bool.eq_false_or_eq_true (truthy v) with ht | ht
    · simp [ht]
    · simp [ht, searchStatic_eq]

/-- Witness for C5: the amended routing at the concrete
`setAttribute(node0, "style", { width: "10px" })` call. -/
theorem c5_setattribute_routing_witness :
    getAttr (setAttribute exStyleSess 0 kStyle exStyleVal) 0 kStyle
      = some exStyleVal ∧
    getKeyN (setAttribute exStyleSess 0 kStyle exStyleVal).styleTab 0
      = some (asStyleMap exStyleVal) ∧
    (setAttribute exStyleSess 0 kStyle exStyleVal).effs =
      exStyleSess.effs ++ [Eff.scheduled] :=
  ⟨(c5_setattribute_routing_amended exStyleSess 0 kStyle exStyleVal).1,
   (c5_setattribute_routing_amended exStyleSess 0 kStyle exStyleVal).2.1 rfl,
   (c5_setattribute_routing_amended exStyleSess 0 kStyle exStyleVal).2.2.2⟩

/-- Counterexample to C5 as stated: `setAttribute("style", { width: "10px" })`
stores the string `"10px"` unchanged in the target tree's style storage and
forwards nothing to the layout engine, even though the node has an attached
layout handle, whereas the Style Interceptor's assignment path at the same
input stores the number `10` and forwards the mapping — so `style` values are
not routed through the interceptor. -/
theorem c5_counterexample :
    getKeyN exStyleRun.styleTab 0 = some [(wname, .str ('1' :: '0' :: pxChars))] ∧
    getKey (styleProxySet true [] wname
        (.str ('1' :: '0' :: pxChars))).newStyle wname = some (.num 10) ∧
    JSVal.str ('1' :: '0' :: pxChars) ≠ .num 10 ∧
    exStyleRun.effs = [Eff.scheduled] := by
  refine ⟨by decide, by decide, by decide, by decide⟩

theorem topIds_removeFromForest : ∀ (cid : Nat) (f : DForest),
    cid ∉ topIdsF (removeFromForest cid f)
  | cid, .nil => by simp [removeFromForest, topIdsF]
  | cid, .cons c f => by
    by_cases h : idOf c = cid
    · simp only [removeFromForest, h, beq_self_eq_true, if_true]
      exact topIds_removeFromForest cid f
    · have hb : (idOf c == cid) = false := by simp [h]
      simp only [removeFromForest, hb, Bool.false_eq_true, if_false, topIdsF]
      simp only [List.mem_cons, not_or]
      exact ⟨fun hx => h hx.symm, topIds_removeFromForest cid f⟩

/-- C6 (confirmed over the spec-modelled `freeRecursive`): `removeChild`
on a container adapter detaches the child from the parent's child list,
releases exactly the removed subtree's layout handles — each exactly once —
and schedules output; the stated hypotheses are the spec's resource model
(a subtree with any attached handle has one at its root, and attached
handles are distinct). -/
theorem c6_remove_child_releases (parent child : DNode)
    (hc : isContainer (nameOf parent) = true)
    (hy : (yogaOf child).isSome = true ∨ subtreeHandles child = [])
    (hnd : (subtreeHandles child).Nodup) :
    ∃ r : RcOut, removeChild parent child = .ok r ∧
      r.released = subtreeHandles child ∧
      r.released.length = (subtreeHandles child).length ∧
      r.released.Nodup ∧
      idOf child ∉ topChildIds r.parentAfter ∧
      r.effs = [Eff.scheduled] := by
  have hrel : (match yogaOf child with
      | some _ => subtreeHandles child
      | none => ([] : List Nat)) = subtreeHandles child := by
    cases hyo : yogaOf child with
    | some h => rfl
    | none =>
      rcases hy with hy | hy
      · rw [hyo] at hy
        exact absurd hy (by simp)
      · simp [hy]
  refine ⟨{ parentAfter := detach (idOf child) parent,
            released := subtreeHandles child,
            effs := [Eff.scheduled] }, ?_, rfl, rfl, hnd, ?_, rfl⟩
  · simp [removeChild, hc, hrel]
  · cases parent with
    | node d f =>
      simp only [detach, topChildIds]
      exact topIds_removeFromForest (idOf child) f

/-- Witness for C6: removing a concrete box (with a text child) holding two
attached handles releases exactly those two handles once each. -/
theorem c6_remove_child_witness :
    ∃ r : RcOut, removeChild exRcParent exRcChild = .ok r ∧
      r.released = subtreeHandles exRcChild ∧
      r.released.length = (subtreeHandles exRcChild).length ∧
      r.released.Nodup ∧
      idOf exRcChild ∉ topChildIds r.parentAfter ∧
      r.effs = [Eff.scheduled] :=
  c6_remove_child_releases exRcParent exRcChild (by decide)
    (Or.inl (by decide)) (by decide)

theorem lookupEntry_none_not_mem (l : List (Nat × Nat)) (t : Nat)
    (h : lookupEntry l t = none) : t ∉ keysOf l := by
  induction l with
  | nil => simp [keysOf]
  | cons p rest ih =>
    obtain ⟨k, v⟩ := p
    by_cases hp : k = t
    · simp [lookupEntry, hp] at h
    · rw [lookupEntry, if_neg hp] at h
      simp only [keysOf, List.map_cons, List.mem_cons, not_or]
      exact ⟨fun hx => hp hx.symm, ih h⟩

/-- C8 (confirmed over the spec-modelled registry): two `render` calls whose
resolved output target is the same identity reuse one session — the second
`getInstance` returns the very session the first returned and leaves the
registry unchanged, the session is registered under the target, and
at-most-one-session-per-target (key uniqueness) is preserved. -/
theorem c8_session_reuse (r : InstRegistry) (t : Nat)
    (hnd : (keysOf r.entries).Nodup) :
    (getInstance t (getInstance t r).2).1 = (getInstance t r).1 ∧
    (getInstance t (getInstance t r).2).2 = (getInstance t r).2 ∧
    lookupEntry (getInstance t r).2.entries t = some (getInstance t r).1 ∧
    (keysOf (getInstance t r).2.entries).Nodup := by
  cases h : lookupEntry r.entries t with
  | some i =>
    refine ⟨?_, ?_, ?_, ?_⟩ <;> simp [getInstance, h, hnd]
  | none =>
    have hmem : t ∉ keysOf r.entries := lookupEntry_none_not_mem r.entries t h
    have hlook : lookupEntry ((t, r.nextInk) :: r.entries) t = some r.nextInk := by
      simp [lookupEntry]
    refine ⟨?_, ?_, ?_, ?_⟩
    · simp [getInstance, h, hlook]
    · simp [getInstance, h, hlook]
    · simp [getInstance, h, hlook]
    · simp only [getInstance, h]
      simp only [keysOf, List.map_cons]
      exact List.Nodup.cons hmem hnd

/-- Witness for C8: from an empty registry, the second call for target 5
returns the session created by the first call and changes nothing. -/
theorem c8_session_reuse_witness :
    (getInstance 5 (getInstance 5 (⟨[], 0⟩ : InstRegistry)).2).1 =
      (getInstance 5 (⟨[], 0⟩ : InstRegistry)).1 ∧
    (getInstance 5 (getInstance 5 (⟨[], 0⟩ : InstRegistry)).2).2 =
      (getInstance 5 (⟨[], 0⟩ : InstRegistry)).2 ∧
    lookupEntry (getInstance 5 (⟨[], 0⟩ : InstRegistry)).2.entries 5 =
      some (getInstance 5 (⟨[], 0⟩ : InstRegistry)).1 ∧
    (keysOf (getInstance 5 (⟨[], 0⟩ : InstRegistry)).2.entries).Nodup :=
  c8_session_reuse ⟨[], 0⟩ 5 (by decide)

/-- Counterexample to C9 as stated: after rendering session 0 and then
session 1, a mutation performed through session 0's adapters runs session 1's
combined routine a second time and session 0's routine not at all — the
static scheduling hook is shared, not per-session. -/
theorem c9_counterexample :
    exTwoSessionRun.ran = [0, 1, 1] ∧
    exTwoSessionRun.ran.count 0 = 1 ∧
    exTwoSessionRun.ran.count 1 = 2 := by
  refine ⟨by decide, by decide, by decide⟩

theorem getKeyN_append_fresh {α : Type} (l : List (Nat × α)) (k : Nat) (c : α)
    (h : ∀ p ∈ l, p.1 ≠ k) : getKeyN (l ++ [(k, c)]) k = some c := by
  induction l with
  | nil => simp [getKeyN]
  | cons p rest ih =>
    have hp : p.1 ≠ k := h p (by simp)
    rw [List.cons_append, getKeyN, if_neg hp]
    exact ih (fun q hq => h q (by simp [hq]))

/-- C9 (amended): the scheduling hook is one shared static slot rebound by
every `render` call: a mutation performed through any session's adapters is
independent of which session owns the adapter, it can only queue a task for
the closure currently bound in the static slot, and after `render` binds a
session (given fresh closure indices) the bound closure captures exactly the
newly rendered session. -/
theorem c9_global_hook_amended (g : GSt) (a b sid : Nat) :
    gMutateVia a g = gMutateVia b g ∧
    ((gMutateVia a g).queued = g.queued ∨
      ∃ cid, g.bound = some cid ∧ (gMutateVia a g).queued = g.queued ++ [cid]) ∧
    ((∀ p ∈ g.closures, p.1 < g.nextCid) →
      gBoundSess (gRender g sid) = some sid) := by
  refine ⟨rfl, ?_, ?_⟩
  · have hmv : gMutateVia a g = gSchedule g := rfl
    rw [hmv]
    cases hb : g.bound with
    | none =>
      left
      unfold gSchedule
      rw [hb]
    | some cid =>
      rcases Bool.eq_false_or_eq_true (gFlag g cid) with hf | hf
      · left
        unfold gSchedule
        rw [hb]
        simp [hf]
      · right
        refine ⟨cid, rfl, ?_⟩
        unfold gSchedule
        rw [hb]
        simp [hf]
  · intro hw
    have hfresh : ∀ p ∈ g.closures, p.1 ≠ g.nextCid :=
      fun p hp => Nat.ne_of_lt (hw p hp)
    have hget : getKeyN (g.closures ++ [(g.nextCid, (⟨sid, false⟩ : Closure))])
        g.nextCid = some ⟨sid, false⟩ :=
      getKeyN_append_fresh g.closures g.nextCid ⟨sid, false⟩ hfresh
    unfold gRender gSchedule
    simp only [gFlag, hget]
    rw [if_neg (by exact Bool.false_ne_true)]
    simp only [gBoundSess, gSetFlag, hget, gSess, getKeyN_setKeyN]
    rfl

/-- Witness for C9's amended statement at the initial global state. -/
theorem c9_global_hook_witness :
    gMutateVia 0 gInit = gMutateVia 1 gInit ∧
    ((gMutateVia 0 gInit).queued = gInit.queued ∨
      ∃ cid, gInit.bound = some cid ∧
        (gMutateVia 0 gInit).queued = gInit.queued ++ [cid]) ∧
    gBoundSess (gRender gInit 7) = some 7 :=
  ⟨(c9_global_hook_amended gInit 0 1 7).1,
   (c9_global_hook_amended gInit 0 1 7).2.1,
   (c9_global_hook_amended gInit 0 1 7).2.2 (by decide)⟩

/-- Counterexample to C10 as stated: two `render` calls against the same
session wrap the session's one root node in two distinct adapters — the
second call constructs a fresh `PreactElement` around the already-wrapped
root node instead of reusing the existing adapter. -/
theorem c10_counterexample :
    adaptersOf exTwoRenders 0 = 2 ∧ 1 < adaptersOf exTwoRenders 0 := by
  refine ⟨by decide, by decide⟩

/-- C10 (amended): the `document` factories wrap only freshly created nodes —
each factory-built node has exactly one adapter, registered in the side
table — but the adapter constructed by `render` for the session's root node
is never registered, and every `render` call adds one more adapter wrapping
that root node, so the at-most-one-adapter-per-node invariant fails at the
root. -/
theorem c10_adapter_registry_amended (w : AdState) (r : Nat)
    (hfresh : ∀ p ∈ w.wraps, p.2 < w.nextNode) :
    adaptersOf (createTextNodeF w) w.nextNode = 1 ∧
    lookupEntry (createTextNodeF w).table w.nextNode = some w.nextAdapter ∧
    adaptersOf (renderAdapter w r) r = adaptersOf w r + 1 ∧
    (renderAdapter w r).table = w.table := by
  refine ⟨?_, ?_, ?_, rfl⟩
  · have hnil : w.wraps.filter (fun p => p.2 == w.nextNode) = [] := by
      rw [List.filter_eq_nil_iff]
      intro p hp
      have := hfresh p hp
      simp [Nat.ne_of_lt this]
    simp [adaptersOf, createTextNodeF, List.filter_cons, hnil]
  · simp [createTextNodeF, lookupEntry]
  · simp [adaptersOf, renderAdapter, List.filter_cons]

/-- Witness for C10's amended statement: a fresh state whose root node 0
exists and has no adapter yet. -/
theorem c10_adapter_registry_witness :
    adaptersOf (createTextNodeF exAdInit) exAdInit.nextNode = 1 ∧
    lookupEntry (createTextNodeF exAdInit).table exAdInit.nextNode =
      some exAdInit.nextAdapter ∧
    adaptersOf (renderAdapter exAdInit 0) 0 = adaptersOf exAdInit 0 + 1 ∧
    (renderAdapter exAdInit 0).table = exAdInit.table :=
  c10_adapter_registry_amended exAdInit 0 (by decide)
